import Mathlib

/-!
Verification of the field-service scheduling core against its specification.

The definitions below are shallow embeddings of the TypeScript source:
strings are Lean `String`s (manipulated through their `List Char` data),
JavaScript array/string operations are modelled by explicit total
functions, and the two network-dependent operations (forward geocoding
and routing) take their remote endpoints as oracle parameters so that
the number of network calls is an explicit, provable quantity.
-/

set_option maxRecDepth 4000

/-- The JavaScript whitespace class (`\s`, and the set used by `trim`):
ASCII blanks plus the Unicode space separators, LS/PS and the BOM. -/
def jsWhitespace (c : Char) : Bool :=
  c = ' ' || c = '\t' || c = '\n' || c = '\r' ||
  c = Char.ofNat 11 || c = Char.ofNat 12 ||
  c = Char.ofNat 160 || c = Char.ofNat 5760 ||
  (8192 ≤ c.toNat && c.toNat ≤ 8202) ||
  c = Char.ofNat 8232 || c = Char.ofNat 8233 || c = Char.ofNat 8239 ||
  c = Char.ofNat 8287 || c = Char.ofNat 12288 || c = Char.ofNat 65279

/-- JavaScript `String.prototype.trim`: drop leading and trailing whitespace. -/
def jsTrim (l : List Char) : List Char :=
  ((l.dropWhile jsWhitespace).reverse.dropWhile jsWhitespace).reverse

/-- JavaScript `String.prototype.split` with a single-character separator.
`splitOnChar sep l` always returns at least one fragment, and
`"".split(sep) = [""]` as in JavaScript. -/
def splitOnChar (sep : Char) : List Char → List (List Char)
  | [] => [[]]
  | c :: t =>
    let r := splitOnChar sep t
    if c = sep then [] :: r
    else
      match r with
      | [] => [[c]]
      | h :: t2 => (c :: h) :: t2

/-- Test `leadsWith pat l`: it holds when `pat` is an initial segment of `l`. -/
def leadsWith : List Char → List Char → Bool
  | [], _ => true
  | _ :: _, [] => false
  | p :: ps, c :: cs => p = c && leadsWith ps cs

/-- JavaScript `String.prototype.includes`: substring containment. -/
def hasInfix (pat : List Char) : List Char → Bool
  | [] => pat.isEmpty
  | c :: t => leadsWith pat (c :: t) || hasInfix pat t

/-- One parsed job record: the nine columns of the markdown table
(`parseMarkdownTable` in `App.tsx`). All fields are strings. -/
structure JobData where
  time : String
  address : String
  productCode : String
  productType : String
  productBrand : String
  fault : String
  errorCode : String
  productionYear : String
  serialNumber : String
  deriving DecidableEq, Repr

/-- JavaScript `cols[k] || d`: the `k`-th cell if it exists and is
non-empty (both `undefined` and `""` are falsy), else the default. -/
def getOr (cols : List String) (k : Nat) (d : String) : String :=
  match cols.get? k with
  | some s => if s = "" then d else s
  | none => d

/-- Cells of a table line, as in the source line
`line.split(..).slice(1, -1).map(trim)`: the cell values of
a table line, discarding the first and last fragment of the split. -/
def cleanColsOf (line : List Char) : List String :=
  (((splitOnChar '|' line).drop 1).dropLast).map (fun c => String.mk (jsTrim c))

/-- Build a `JobData` from the cell list, with the defaults of the source
(`time` falls back to `"TBD"`, every other column to `""`). -/
def mkJob (cols : List String) : JobData :=
  ⟨getOr cols 0 "TBD", getOr cols 1 "", getOr cols 2 "", getOr cols 3 "",
   getOr cols 4 "", getOr cols 5 "", getOr cols 6 "", getOr cols 7 "",
   getOr cols 8 ""⟩

/-- The `continue` condition of the parser loop: a line is skipped when it
has no delimiter, contains a dash rule, or looks like a header line
(contains both "time" and "address", case-insensitively). -/
def isSkippedLine (line : List Char) : Bool :=
  !(hasInfix ['|'] line) || hasInfix ['-', '-', '-'] line ||
    (hasInfix "time".data (line.map Char.toLower) &&
     hasInfix "address".data (line.map Char.toLower))

/-- The body of the `for` loop of `parseMarkdownTable`: walk the lines in
order, skipping non-data lines, and push a job for each line whose cell
list has at least 8 entries. -/
def parseLines : List (List Char) → List JobData
  | [] => []
  | line :: rest =>
    if isSkippedLine line then parseLines rest
    else
      if 8 ≤ (cleanColsOf line).length then mkJob (cleanColsOf line) :: parseLines rest
      else parseLines rest

/-- Embedding of `parseMarkdownTable` from `App.tsx`: trim the input, split it into
lines, and fold the line filter over them. -/
def parseMarkdownTable (markdown : String) : List JobData :=
  parseLines (splitOnChar '\n' (jsTrim markdown.data))

/-- A scheduled time window (`TimeSlot` in `TimeSlotManager.tsx`):
`start` and `end` are strings such as `"07:30"`. -/
structure TimeSlot where
  start : String
  stop : String
  deriving DecidableEq, Repr

/-- JavaScript `String(n).padStart(2, "0")` for a natural number. -/
def pad2 (n : Nat) : String :=
  if n < 10 then "0" ++ toString n else toString n

/-- Render a minute count the way `TimeSlotManager` does:
`pad(minutes / 60) ++ ":" ++ pad(minutes % 60)`. -/
def renderTime (mins : Nat) : String :=
  pad2 (mins / 60) ++ ":" ++ pad2 (mins % 60)

/-- The `for (let i = 1; i < jobCount; i++)` loop of the initial-slot
derivation: starting from `currentStartMinutes`, produce `n` slots of 120
minutes each, stepping the start by 120 minutes between slots. -/
def initialSlotsFrom (currentStartMinutes : Nat) : Nat → List TimeSlot
  | 0 => []
  | n + 1 =>
    ⟨renderTime currentStartMinutes, renderTime (currentStartMinutes + 120)⟩ ::
      initialSlotsFrom (currentStartMinutes + 120) n

/-- The slot list built inside the derivation effect of `TimeSlotManager`
for a positive job count: the fixed first slot followed by the 120-minute
slots starting at 8:00 (480 minutes). -/
def deriveInitialSlots (jobCount : Nat) : List TimeSlot :=
  ⟨"07:30", "08:30"⟩ :: initialSlotsFrom 480 (jobCount - 1)

/-- The `useEffect` of `TimeSlotManager`: it regenerates the slot list
only when `jobCount > 0` and no slots exist yet; otherwise the slots are
left as they are. -/
def timeSlotsEffect (jobCount : Nat) (timeSlots : List TimeSlot) : List TimeSlot :=
  if jobCount > 0 && timeSlots.length == 0 then deriveInitialSlots jobCount
  else timeSlots

/-- JavaScript `Number` restricted to the shapes `handleStartTimeChange`
feeds it: `""` is 0, a digit string is its decimal value, anything else
is `NaN` (modelled as `none`). -/
def jsNumber (l : List Char) : Option Nat :=
  if l = [] then some 0
  else if l.all Char.isDigit then
    some (l.foldl (fun acc c => acc * 10 + (c.toNat - 48)) 0)
  else none

/-- Embedding of `handleStartTimeChange` from `TimeSlotManager.tsx`: split the new
start on `':'`, read hour and minute, and replace slot `index` by the new
start paired with an end 120 minutes later. A start that does not yield
two numbers produces `NaN` arithmetic, which renders as `"NaN:NaN"`. -/
def reviseSlot (slots : List TimeSlot) (index : Nat) (newStart : String) : List TimeSlot :=
  let newEnd : String :=
    match splitOnChar ':' newStart.data with
    | hs :: ms :: _ =>
      match jsNumber hs, jsNumber ms with
      | some h, some m => renderTime (h * 60 + m + 120)
      | _, _ => "NaN:NaN"
    | _ => "NaN:NaN"
  slots.set index ⟨newStart, newEnd⟩

/-- A saved worksheet record (the `worksheetPayload` built by
`handleSaveWorksheet` in `App.tsx`). The jobs sequence uses `Option`
because a JavaScript array written beyond its length acquires holes,
which read back as `undefined` (here `none`). -/
structure Worksheet where
  dateLabel : String
  date : String
  createdAt : String
  timeSlots : List TimeSlot
  jobs : List (Option JobData)
  comments : List (Nat × String)
  deriving DecidableEq, Repr

/-- JavaScript `a[i] = x` on an array copy: an in-range index replaces
the element; an index at or past the length extends the array, filling
the gap with holes. -/
def jsArraySet {α : Type} (l : List (Option α)) (i : Nat) (x : α) : List (Option α) :=
  if i < l.length then l.set i (some x)
  else l ++ List.replicate (i - l.length) none ++ [some x]

/-- The worksheet record frozen at save time: its jobs are exactly the
parsed jobs (no holes) and its comment map starts empty. -/
def createWorksheet (dateLabel date createdAt : String) (timeSlots : List TimeSlot)
    (jobs : List JobData) : Worksheet :=
  ⟨dateLabel, date, createdAt, timeSlots, jobs.map some, []⟩

/-- Embedding of `handleUpdateJob` from `WorksheetView`: copy the jobs array, write
`updatedJob` at `index`, and store the record with every other field
untouched. There is no range check. -/
def handleUpdateJob (w : Worksheet) (index : Nat) (updatedJob : JobData) : Worksheet :=
  { w with jobs := jsArraySet w.jobs index updatedJob }

/-- All positions at which `pat` occurs in `s`, in increasing order. -/
def occPositions (s pat : List Char) : List Nat :=
  (List.range (s.length + 1)).filter (fun i => leadsWith pat (s.drop i))

/-- JavaScript `String.prototype.indexOf`: the first occurrence position, if any. -/
def firstOccIdx (s pat : List Char) : Option Nat :=
  (occPositions s pat).head?

/-- The `GetSubstitution` step of `String.prototype.replace` for a string
pattern: in the replacement text, `$$` stands for a dollar sign, `$&` for
the matched text, a dollar followed by a backquote for the text before
the match, `$` followed by a quote for the text after it; any other
character is literal. -/
def getSubstitution (matched before after : List Char) : List Char → List Char
  | [] => []
  | [c] => [c]
  | c :: c2 :: t =>
    if c = '$' then
      if c2 = '$' then '$' :: getSubstitution matched before after t
      else if c2 = '&' then matched ++ getSubstitution matched before after t
      else if c2 = Char.ofNat 96 then before ++ getSubstitution matched before after t
      else if c2 = Char.ofNat 39 then after ++ getSubstitution matched before after t
      else c :: getSubstitution matched before after (c2 :: t)
    else c :: getSubstitution matched before after (c2 :: t)

/-- JavaScript `s.replace(pat, repl)` with a string pattern: replace only the first
occurrence, applying replacement-pattern substitution to `repl`; return
`s` unchanged when the pattern does not occur. -/
def replaceJS (s pat repl : String) : String :=
  match firstOccIdx s.data pat.data with
  | none => s
  | some i =>
    String.mk (s.data.take i ++
      getSubstitution pat.data (s.data.take i) (s.data.drop (i + pat.data.length)) repl.data ++
      s.data.drop (i + pat.data.length))

/-- The literal placeholder token of the notification templates. -/
def timeSlotPlaceholder : String := "\x7b\x7bTIME_SLOT\x7d\x7d"

/-- The string substituted for the placeholder: the indexed slot rendered
as start, dash, end when the slot exists, else the `"[TIME]"` marker. -/
def slotTimeString (slot : Option TimeSlot) : String :=
  match slot with
  | some s => s.start ++ " - " ++ s.stop
  | none => "[TIME]"

/-- The indexed walk behind the message-finalization map: process the
remaining templates, the next one having index `index`. -/
def finalizeFrom (timeSlots : List TimeSlot) (index : Nat) : List String → List String
  | [] => []
  | msg :: rest =>
    replaceJS msg timeSlotPlaceholder (slotTimeString (timeSlots.get? index)) ::
      finalizeFrom timeSlots (index + 1) rest

/-- The message-finalization map of `handleSaveWorksheet`: for each
notification template, replace the placeholder with the text of the slot
at the index of the template. -/
def finalizeMessages (notifications : List String) (timeSlots : List TimeSlot) : List String :=
  finalizeFrom timeSlots 0 notifications

/-- The characters `encodeURIComponent` leaves unescaped: letters,
digits, and the marks minus, underscore, dot, bang, tilde, star, quote
and parentheses. -/
def uriUnescaped (c : Char) : Bool :=
  c.isAlpha || c.isDigit || c = '-' || c = '_' || c = '.' || c = '!' ||
  c = '~' || c = '*' || c = Char.ofNat 39 || c = '(' || c = ')'

/-- The UTF-8 byte sequence of a code point. -/
def utf8BytesOfChar (c : Char) : List Nat :=
  let n := c.toNat
  if n < 128 then [n]
  else if n < 2048 then [192 + n / 64, 128 + n % 64]
  else if n < 65536 then [224 + n / 4096, 128 + (n / 64) % 64, 128 + n % 64]
  else [240 + n / 262144, 128 + (n / 4096) % 64, 128 + (n / 64) % 64, 128 + n % 64]

/-- An uppercase hexadecimal digit. -/
def hexDigitChar (n : Nat) : Char :=
  if n < 10 then Char.ofNat (48 + n) else Char.ofNat (55 + n)

/-- Percent-encoding of one byte, uppercase as in `encodeURIComponent`. -/
def percentEncodeByte (b : Nat) : List Char :=
  ['%', hexDigitChar (b / 16), hexDigitChar (b % 16)]

/-- JavaScript `encodeURIComponent`: unescaped characters stand for
themselves; every other character is replaced by the percent-encoding of
its UTF-8 bytes. -/
def encodeURIComponent (s : String) : String :=
  String.mk ((s.data.map (fun c =>
    if uriUnescaped c then [c] else ((utf8BytesOfChar c).map percentEncodeByte).flatten)).flatten)

/-- The letter class `[A-Za-z]` of the postcode pattern, on an optional
character (`none` when the position is past the end of the text). -/
def testL (o : Option Char) : Bool :=
  match o with
  | some c => c.isAlpha
  | none => false

/-- The digit class `[0-9]` of the postcode pattern. -/
def testD (o : Option Char) : Bool :=
  match o with
  | some c => c.isDigit
  | none => false

/-- The class `[A-Ha-hJ-Yj-y]` of the postcode pattern. -/
def testH (o : Option Char) : Bool :=
  match o with
  | some c =>
    (65 ≤ c.toNat && c.toNat ≤ 72) || (74 ≤ c.toNat && c.toNat ≤ 89) ||
    (97 ≤ c.toNat && c.toNat ≤ 104) || (106 ≤ c.toNat && c.toNat ≤ 121)
  | none => false

/-- The candidate lengths, in the preference order of the regex engine, with
which the outward part of `UK_POSTCODE_REGEX` can match at the head of
`l`: the alternation tries letter-digit-digit, letter-digit,
letter-second letter-digit-digit, letter-second letter-digit,
letter-digit-letter, then letter-second letter-digit with and without a
trailing letter, each quantifier greedily. -/
def outwardCands (l : List Char) : List Nat :=
  (if testL (l.get? 0) && testD (l.get? 1) && testD (l.get? 2) then [3] else []) ++
  (if testL (l.get? 0) && testD (l.get? 1) then [2] else []) ++
  (if testL (l.get? 0) && testH (l.get? 1) && testD (l.get? 2) && testD (l.get? 3) then [4] else []) ++
  (if testL (l.get? 0) && testH (l.get? 1) && testD (l.get? 2) then [3] else []) ++
  (if testL (l.get? 0) && testD (l.get? 1) && testL (l.get? 2) then [3] else []) ++
  (if testL (l.get? 0) && testH (l.get? 1) && testD (l.get? 2) && testL (l.get? 3) then [4] else []) ++
  (if testL (l.get? 0) && testH (l.get? 1) && testD (l.get? 2) then [3] else [])

/-- Digit followed by two letters: the inward part of the postcode. -/
def dll3 (l : List Char) : Bool :=
  testD (l.get? 0) && testL (l.get? 1) && testL (l.get? 2)

/-- Match length of the pattern tail following the outward part:
an optional whitespace (greedy), then digit and two letters. -/
def tailMatchLen (l : List Char) : Option Nat :=
  match l with
  | c :: rest => if jsWhitespace c && dll3 rest then some 4 else if dll3 l then some 3 else none
  | [] => if dll3 l then some 3 else none

/-- Try each outward candidate in preference order against the tail,
returning the total match length of the first that succeeds. -/
def firstOutwardTail : List Nat → List Char → Option Nat
  | [], _ => none
  | k :: ks, l =>
    match tailMatchLen (l.drop k) with
    | some t => some (k + t)
    | none => firstOutwardTail ks l

/-- Match length of the first alternative `[Gg][Ii][Rr] 0[Aa]{2}` at the
head of `l`. -/
def girMatchLen (l : List Char) : Option Nat :=
  match l with
  | g :: i :: r :: sp :: z :: a1 :: a2 :: _ =>
    if (g = 'G' || g = 'g') && (i = 'I' || i = 'i') && (r = 'R' || r = 'r') &&
       sp = ' ' && z = '0' && (a1 = 'A' || a1 = 'a') && (a2 = 'A' || a2 = 'a')
    then some 7 else none
  | _ => none

/-- Match length of `UK_POSTCODE_REGEX` anchored at the head of `l`,
trying the GIR alternative first as the regex does. -/
def postcodeMatchAt (l : List Char) : Option Nat :=
  match girMatchLen l with
  | some k => some k
  | none => firstOutwardTail (outwardCands l) l

/-- Embedding of `addr.match(UK_POSTCODE_REGEX)`: the text of the leftmost match, with
backtracking preference at each position. -/
def postcodeFirstMatch : List Char → Option (List Char)
  | [] => none
  | c :: t =>
    match postcodeMatchAt (c :: t) with
    | some k => some ((c :: t).take k)
    | none => postcodeFirstMatch t

/-- Replacement of each newline by a comma and a space. -/
def replaceNewlines (l : List Char) : List Char :=
  (l.map (fun c => if c = '\n' then [',', ' '] else [c])).flatten

/-- Replacement of each pipe character by a space. -/
def replacePipes (l : List Char) : List Char :=
  l.map (fun c => if c = '|' then ' ' else c)

/-- The recursion behind `/\s+/g` replacement by one space: a whitespace
run contributes a single space. -/
def collapseWsAux (prevSpace : Bool) : List Char → List Char
  | [] => []
  | c :: t =>
    if jsWhitespace c then
      if prevSpace then collapseWsAux true t else ' ' :: collapseWsAux true t
    else c :: collapseWsAux false t

/-- Replacement of each whitespace run by a single space. -/
def collapseWs (l : List Char) : List Char :=
  collapseWsAux false l

/-- Embedding of `cleanAddressForGeocode` from the routing service: the empty address
and the `"TBD"` placeholder normalize to the empty query; otherwise an
extracted UK postcode is used uppercased, and failing that the address
with newlines turned into comma-space, pipes into spaces, whitespace
collapsed, and the ends trimmed. -/
def cleanAddressForGeocode (addr : String) : String :=
  if addr = "" || addr = "TBD" then ""
  else
    match postcodeFirstMatch addr.data with
    | some m => String.mk (m.map Char.toUpper)
    | none => String.mk (jsTrim (collapseWs (replacePipes (replaceNewlines addr.data))))

/-- Embedding of `cleanAddressForUrl`: the looser normalization used for the map link,
with no postcode extraction and no pipe replacement. -/
def cleanAddressForUrl (addr : String) : String :=
  if addr = "" then ""
  else String.mk (jsTrim (collapseWs (replaceNewlines addr.data)))

/-- Embedding of `getGoogleMapsUrl`: the directions deep link with both endpoints
URL-encoded after the loose normalization. -/
def getGoogleMapsUrl (origin destination : String) : String :=
  "https://www.google.com/maps/dir/?api=1&origin=" ++
    encodeURIComponent (cleanAddressForUrl origin) ++
    "&destination=" ++ encodeURIComponent (cleanAddressForUrl destination)

/-- The geocoding query sent for an address: the cleaned address,
URL-encoded. -/
def geocodeQuery (address : String) : String :=
  encodeURIComponent (cleanAddressForGeocode address)

/-- The skip test of `geocode`: `!query || query.length < 3` on the
URL-encoded query. -/
def geocodeSkips (address : String) : Bool :=
  geocodeQuery address = "" || (geocodeQuery address).length < 3

/-- Embedding of `geocode` with the Nominatim round trip abstracted into the oracle
`net`, which maps a query to the parsed coordinates (or `none` for any
HTTP failure, empty result list, or thrown error). A skipped query
resolves to `none` without consulting the oracle. -/
def geocode {γ : Type} (net : String → Option γ) (address : String) : Option γ :=
  if geocodeSkips address then none else net (geocodeQuery address)

/-- The number of geocoding network requests issued for one address:
zero when the query is skipped, one otherwise. -/
def geocodeCalls (address : String) : Nat :=
  if geocodeSkips address then 0 else 1

/-- Embedding of `estimateTravelTime` with the OSRM round trip abstracted into the
oracle `route`: absent when either address is empty, when either geocode
resolves nothing, or when routing fails; otherwise the route payload
paired with the maps link built from the raw addresses. -/
def estimateTravelTime {γ δ : Type} (net : String → Option γ)
    (route : γ → γ → Option δ) (origin destination : String) : Option (δ × String) :=
  let googleMapsUrl := getGoogleMapsUrl origin destination
  if origin = "" || destination = "" then none
  else
    match geocode net origin, geocode net destination with
    | some s, some e =>
      match route s e with
      | some stats => some (stats, googleMapsUrl)
      | none => none
    | _, _ => none

/-- The number of network requests issued by one `estimateTravelTime`
call: none for an empty endpoint; otherwise a geocode request per
non-skipped address, plus the routing request when both geocodes
resolve. -/
def estimateCalls {γ : Type} (net : String → Option γ) (origin destination : String) : Nat :=
  if origin = "" || destination = "" then 0
  else
    geocodeCalls origin + geocodeCalls destination +
      (match geocode net origin, geocode net destination with
       | some _, some _ => 1
       | _, _ => 0)

/-- Unfolding of the parser loop: it keeps, in order, exactly the lines
that are not skipped and have at least 8 cells, and maps each kept line
to its job record. -/
theorem parseLines_eq_filterMap (ls : List (List Char)) :
    parseLines ls =
      (ls.filter (fun line =>
          !isSkippedLine line && decide (8 ≤ (cleanColsOf line).length))).map
        (fun line => mkJob (cleanColsOf line)) := by
  induction ls with
  | nil => rfl
  | cons line rest ih =>
    cases hs : isSkippedLine line with
    | true => simp [parseLines, hs, ih]
    | false =>
      by_cases hl : 8 ≤ (cleanColsOf line).length
      · simp [parseLines, hs, hl, ih]
      · simp [parseLines, hs, hl, ih]

/-- The parser never yields more rows than the input has lines. -/
theorem parseLines_length_le (ls : List (List Char)) :
    (parseLines ls).length ≤ ls.length := by
  induction ls with
  | nil => exact Nat.le_refl 0
  | cons line rest ih =>
    simp only [parseLines]
    split
    · exact Nat.le_succ_of_le ih
    · split
      · exact Nat.succ_le_succ ih
      · exact Nat.le_succ_of_le ih

/-- C1 (amended): the parser accepts a line as a data row exactly when
the line contains the pipe delimiter, does not contain a dash rule
(the substring of three dashes), is not header-like (does not contain
both a time-like and an address-like token, case-insensitively), and
splits into at least 8 cell values after discarding the first and last
fragments produced by the opening and closing delimiters; every accepted
line contributes exactly its job record, in input order. -/
theorem C1_parse_row_acceptance (md : String) :
    parseMarkdownTable md =
      ((splitOnChar '\n' (jsTrim md.data)).filter (fun line =>
          hasInfix ['|'] line && !hasInfix ['-', '-', '-'] line &&
          !(hasInfix "time".data (line.map Char.toLower) &&
            hasInfix "address".data (line.map Char.toLower)) &&
          decide (8 ≤ (cleanColsOf line).length))).map
        (fun line => mkJob (cleanColsOf line)) := by
  rw [parseMarkdownTable, parseLines_eq_filterMap]
  congr 1
  apply List.filter_congr
  intro line _
  simp only [isSkippedLine, Bool.not_or, Bool.not_not, Bool.and_assoc]

/-- C1 counterexample: a line with exactly 8 cells between its delimiters
is accepted as a data row (with an empty serial number), so a row with
fewer than 9 cells does appear in the parse output, contradicting the
claimed 9-cell minimum. -/
theorem C1_counterexample :
    (cleanColsOf "|a|b|c|d|e|f|g|h|".data).length = 8 ∧
    parseMarkdownTable "|a|b|c|d|e|f|g|h|" =
      [⟨"a", "b", "c", "d", "e", "f", "g", "h", ""⟩] :=
  ⟨by decide, by decide⟩

/-- C9: parse of the empty string is the empty sequence, and parse is a
total function whose output never has more rows than the input has
lines (malformed input degrades to an empty or partial sequence). -/
theorem C9_parse_total_on_empty_and_malformed :
    parseMarkdownTable "" = [] ∧
    ∀ md : String,
      (parseMarkdownTable md).length ≤ (splitOnChar '\n' (jsTrim md.data)).length :=
  ⟨rfl, fun _ => parseLines_length_le _⟩

/-- Length of the derivation loop output. -/
theorem initialSlotsFrom_length : ∀ (n c : Nat), (initialSlotsFrom c n).length = n
  | 0, _ => rfl
  | n + 1, c => by simp [initialSlotsFrom, initialSlotsFrom_length n (c + 120)]

/-- Entries of the derivation loop output: the `j`-th slot starts
`120 * j` minutes after the running start. -/
theorem initialSlotsFrom_get? : ∀ (n c j : Nat), j < n →
    (initialSlotsFrom c n).get? j =
      some ⟨renderTime (c + 120 * j), renderTime (c + 120 * j + 120)⟩
  | 0, _, j, hj => absurd hj (Nat.not_lt_zero j)
  | n + 1, c, 0, _ => by simp [initialSlotsFrom]
  | n + 1, c, j + 1, hj => by
    have ih := initialSlotsFrom_get? n (c + 120) j (Nat.lt_of_succ_lt_succ hj)
    have harith : c + 120 + 120 * j = c + 120 * (j + 1) := by ring
    simp only [initialSlotsFrom, List.get?_cons_succ, ih, harith]

/-- C3: the slot derivation fires only when no slots yet exist and the
job count is positive; it then yields exactly `jobCount` slots, slot 0
being the fixed 07:30 to 08:30 pair and slot `i` (for `i` at least 1)
running from `480 + (i-1)*120` minutes for 120 minutes, rendered
zero-padded; in particular the derivations for one and for three jobs
are the listed values. -/
theorem C3_initial_slot_derivation (n : Nat) (hn : 0 < n) :
    timeSlotsEffect n [] = deriveInitialSlots n ∧
    (∀ slots : List TimeSlot, slots ≠ [] → timeSlotsEffect n slots = slots) ∧
    (∀ slots : List TimeSlot, timeSlotsEffect 0 slots = slots) ∧
    (deriveInitialSlots n).length = n ∧
    (deriveInitialSlots n).get? 0 = some ⟨"07:30", "08:30"⟩ ∧
    (∀ i, 1 ≤ i → i < n →
      (deriveInitialSlots n).get? i =
        some ⟨renderTime (480 + (i - 1) * 120), renderTime (480 + (i - 1) * 120 + 120)⟩) ∧
    deriveInitialSlots 1 = [⟨"07:30", "08:30"⟩] ∧
    deriveInitialSlots 3 =
      [⟨"07:30", "08:30"⟩, ⟨"08:00", "10:00"⟩, ⟨"10:00", "12:00"⟩] := by
  refine ⟨?_, ?_, ?_, ?_, rfl, ?_, by decide, by decide⟩
  · simp [timeSlotsEffect, hn]
  · intro slots hne
    simp [timeSlotsEffect, hne]
  · intro slots
    simp [timeSlotsEffect]
  · simp [deriveInitialSlots, initialSlotsFrom_length]
    omega
  · intro i h1 h2
    cases i with
    | zero => exact absurd h1 (by decide)
    | succ j =>
      have hj : j < n - 1 := by omega
      have hget := initialSlotsFrom_get? (n - 1) 480 j hj
      have harith : 480 + 120 * j = 480 + (j + 1 - 1) * 120 := by omega
      rw [harith] at hget
      rw [deriveInitialSlots, List.get?_cons_succ]
      exact hget

/-- C3 witness: the derivation for three jobs, with the positivity
hypothesis discharged at the concrete job count. -/
theorem C3_witness :
    0 < 3 ∧
    deriveInitialSlots 3 =
      [⟨"07:30", "08:30"⟩, ⟨"08:00", "10:00"⟩, ⟨"10:00", "12:00"⟩] :=
  ⟨by decide, (C3_initial_slot_derivation 3 (by decide)).2.2.2.2.2.2.2⟩

/-- C2 counterexample: revising slot 0 of the freshly derived list to its
current start 07:30 does not leave it unchanged — the end is recomputed
to 09:30, two hours after the start, although it was 08:30. -/
theorem C2_counterexample :
    reviseSlot [⟨"07:30", "08:30"⟩] 0 "07:30" = [⟨"07:30", "09:30"⟩] ∧
    reviseSlot [⟨"07:30", "08:30"⟩] 0 "07:30" ≠ [⟨"07:30", "08:30"⟩] :=
  ⟨by decide, by decide⟩

/-- C2 (amended): for an in-range index and a start of the form HH:MM,
`reviseSlot` rewrites exactly slot `i` to the new start with an end 120
minutes later, rendered zero-padded; it is idempotent in the sense that
revising twice with the same start equals revising once, and revising to
the current start leaves the list unchanged provided the slot already
ends 120 minutes after its start. -/
theorem C2_reviseSlot_recompute (slots : List TimeSlot) (i : Nat) (S : String)
    (hs ms : List Char) (h m : Nat)
    (hlen : i < slots.length)
    (hsplit : splitOnChar ':' S.data = [hs, ms])
    (hh : jsNumber hs = some h) (hm : jsNumber ms = some m) :
    (reviseSlot slots i S).get? i = some ⟨S, renderTime (h * 60 + m + 120)⟩ ∧
    (∀ j, j ≠ i → (reviseSlot slots i S).get? j = slots.get? j) ∧
    reviseSlot (reviseSlot slots i S) i S = reviseSlot slots i S ∧
    (slots.get? i = some ⟨S, renderTime (h * 60 + m + 120)⟩ →
      reviseSlot slots i S = slots) := by
  have hrev : reviseSlot slots i S =
      slots.set i ⟨S, renderTime (h * 60 + m + 120)⟩ := by
    simp [reviseSlot, hsplit, hh, hm]
  refine ⟨?_, ?_, ?_, ?_⟩
  · rw [hrev]
    exact List.get?_set_eq_of_lt _ hlen
  · intro j hj
    rw [hrev]
    exact List.get?_set_ne _ _ (Ne.symm hj)
  · rw [hrev]
    simp [reviseSlot, hsplit, hh, hm, List.set_set]
  · intro hcur
    rw [hrev]
    apply List.ext_get?
    intro j
    by_cases hji : j = i
    · subst hji
      rw [List.get?_set_eq_of_lt _ hlen, hcur]
    · exact List.get?_set_ne _ _ (Ne.symm hji)

/-- C2 witness: revising slot 1 of a two-slot list to 09:00 gives an end
of 11:00, with every hypothesis discharged at the concrete input. -/
theorem C2_witness :
    (reviseSlot [⟨"07:30", "08:30"⟩, ⟨"08:00", "10:00"⟩] 1 "09:00").get? 1 =
      some ⟨"09:00", renderTime (9 * 60 + 0 + 120)⟩ :=
  (C2_reviseSlot_recompute [⟨"07:30", "08:30"⟩, ⟨"08:00", "10:00"⟩] 1 "09:00"
    "09".data "00".data 9 0 (by decide) (by decide) (by decide) (by decide)).1

/-- C4: evaluating the job update at an out-of-range index on a one-job
worksheet. The call neither fails nor reports anything: it silently
extends the jobs sequence with holes and applies the update, so the
record is saved in a corrupted shape. This contradicts the specified
error-handling design, which demands a hard, reported failure. -/
theorem C4_out_of_range_update_is_silent :
    handleUpdateJob
        (createWorksheet "Thursday, Nov 13" "2025-11-12" "2025-11-12"
          [⟨"07:30", "08:30"⟩]
          [⟨"09:00", "1 Road", "c", "d", "e", "f", "g", "h", "i"⟩]) 3
        ⟨"10:00", "2 Road", "c2", "d2", "e2", "f2", "g2", "h2", "i2"⟩ =
      ⟨"Thursday, Nov 13", "2025-11-12", "2025-11-12", [⟨"07:30", "08:30"⟩],
        [some ⟨"09:00", "1 Road", "c", "d", "e", "f", "g", "h", "i"⟩, none, none,
         some ⟨"10:00", "2 Road", "c2", "d2", "e2", "f2", "g2", "h2", "i2"⟩], []⟩ := by
  decide

/-- C5: updating an in-range job of a worksheet created at save time
changes exactly that job; every other job, the time slots, the comments
and the date fields are unchanged. -/
theorem C5_updateJobField_frame (dl d ca : String) (ts : List TimeSlot)
    (jobs : List JobData) (idx : Nat) (X : JobData)
    (hidx : idx < jobs.length) :
    (handleUpdateJob (createWorksheet dl d ca ts jobs) idx X).jobs.get? idx =
        some (some X) ∧
    (∀ k, k ≠ idx →
      (handleUpdateJob (createWorksheet dl d ca ts jobs) idx X).jobs.get? k =
        (createWorksheet dl d ca ts jobs).jobs.get? k) ∧
    (handleUpdateJob (createWorksheet dl d ca ts jobs) idx X).timeSlots = ts ∧
    (handleUpdateJob (createWorksheet dl d ca ts jobs) idx X).comments = [] ∧
    (handleUpdateJob (createWorksheet dl d ca ts jobs) idx X).dateLabel = dl ∧
    (handleUpdateJob (createWorksheet dl d ca ts jobs) idx X).date = d ∧
    (handleUpdateJob (createWorksheet dl d ca ts jobs) idx X).createdAt = ca := by
  have hlen : idx < ((createWorksheet dl d ca ts jobs).jobs).length := by
    simp [createWorksheet, hidx]
  have hjobs : (handleUpdateJob (createWorksheet dl d ca ts jobs) idx X).jobs =
      ((createWorksheet dl d ca ts jobs).jobs).set idx (some X) := by
    simp only [handleUpdateJob, jsArraySet, if_pos hlen]
  refine ⟨?_, ?_, rfl, rfl, rfl, rfl, rfl⟩
  · rw [hjobs]
    exact List.get?_set_eq_of_lt _ hlen
  · intro k hk
    rw [hjobs]
    exact List.get?_set_ne _ _ (Ne.symm hk)

/-- C5 witness: the frame property applied to a concrete two-job
worksheet, updating job 0. -/
theorem C5_witness :
    (handleUpdateJob
        (createWorksheet "d" "i" "c" [⟨"07:30", "08:30"⟩]
          [⟨"t", "a", "p", "q", "r", "f", "e", "y", "s"⟩,
           ⟨"t1", "a1", "p1", "q1", "r1", "f1", "e1", "y1", "s1"⟩]) 0
        ⟨"t2", "a2", "p2", "q2", "r2", "f2", "e2", "y2", "s2"⟩).jobs.get? 0 =
      some (some ⟨"t2", "a2", "p2", "q2", "r2", "f2", "e2", "y2", "s2"⟩) :=
  (C5_updateJobField_frame "d" "i" "c" [⟨"07:30", "08:30"⟩]
    [⟨"t", "a", "p", "q", "r", "f", "e", "y", "s"⟩,
     ⟨"t1", "a1", "p1", "q1", "r1", "f1", "e1", "y1", "s1"⟩] 0
    ⟨"t2", "a2", "p2", "q2", "r2", "f2", "e2", "y2", "s2"⟩ (by decide)).1

/-- Replacement text without a dollar sign is substituted literally. -/
theorem getSubstitution_no_dollar (m b a : List Char) :
    ∀ r : List Char, '$' ∉ r → getSubstitution m b a r = r
  | [] => fun _ => rfl
  | [_] => fun _ => rfl
  | c :: c2 :: t => fun h => by
    have hc : c ≠ '$' := fun hcc => h (hcc ▸ List.mem_cons_self c (c2 :: t))
    have ht : '$' ∉ c2 :: t := fun hmem => h (List.mem_cons_of_mem c hmem)
    rw [getSubstitution, if_neg hc, getSubstitution_no_dollar m b a (c2 :: t) ht]

/-- Unfolding of the replacement at the unique occurrence position. -/
theorem replaceJS_at_unique (msg pat repl : String) (pre suf : List Char)
    (hdecomp : msg.data = pre ++ pat.data ++ suf)
    (hocc : occPositions msg.data pat.data = [pre.length]) :
    replaceJS msg pat repl =
      String.mk (pre ++ getSubstitution pat.data pre suf repl.data ++ suf) := by
  have htake : msg.data.take pre.length = pre := by
    rw [hdecomp, List.append_assoc]
    exact List.take_left pre _
  have hdrop : msg.data.drop (pre.length + pat.data.length) = suf := by
    rw [hdecomp]
    exact List.drop_left' (by simp)
  unfold replaceJS firstOccIdx
  rw [hocc]
  simp only [List.head?]
  rw [htake, hdrop]

/-- Length of the finalization walk. -/
theorem finalizeFrom_length (ts : List TimeSlot) :
    ∀ (msgs : List String) (k : Nat), (finalizeFrom ts k msgs).length = msgs.length
  | [], _ => rfl
  | _ :: rest, k => by
    simp [finalizeFrom, finalizeFrom_length ts rest (k + 1)]

/-- Entries of the finalization walk: message `i` of the remaining list is
finalized against slot `k + i`. -/
theorem finalizeFrom_get? (ts : List TimeSlot) :
    ∀ (msgs : List String) (k i : Nat),
      (finalizeFrom ts k msgs).get? i =
        (msgs.get? i).map (fun msg =>
          replaceJS msg timeSlotPlaceholder (slotTimeString (ts.get? (k + i))))
  | [], _, _ => by simp [finalizeFrom]
  | _ :: _, _, 0 => by simp [finalizeFrom]
  | _ :: rest, k, i + 1 => by
    have ih := finalizeFrom_get? ts rest (k + 1) i
    have harith : k + 1 + i = k + (i + 1) := by omega
    rw [harith] at ih
    simp only [finalizeFrom, List.get?_cons_succ]
    exact ih

/-- C6 counterexample: with a slot whose start is the string of two
dollar signs, the replacement applies the JavaScript dollar-escape rules,
so the finalized message is not the template with the placeholder
replaced verbatim by start, dash, end. -/
theorem C6_counterexample :
    finalizeMessages ["Hi " ++ timeSlotPlaceholder] [⟨"$$", "11:00"⟩] =
      ["Hi $ - 11:00"] ∧
    finalizeMessages ["Hi " ++ timeSlotPlaceholder] [⟨"$$", "11:00"⟩] ≠
      ["Hi " ++ ("$$" ++ " - " ++ "11:00")] :=
  ⟨by decide, by decide⟩

/-- C6 (amended): for a template containing exactly one placeholder
occurrence, finalization replaces it with start, dash, end of the slot at
the same index whenever that slot exists and its times contain no dollar
sign (as all HH:MM times do), with the literal TIME marker when no slot
exists at that index; the output always has one message per template, so
differing template and slot counts never fail. -/
theorem C6_message_finalization (msgs : List String) (slots : List TimeSlot) (i : Nat)
    (msg : String) (pre suf : List Char)
    (hmsg : msgs.get? i = some msg)
    (hdecomp : msg.data = pre ++ timeSlotPlaceholder.data ++ suf)
    (hocc : occPositions msg.data timeSlotPlaceholder.data = [pre.length]) :
    (∀ s : TimeSlot, slots.get? i = some s →
      '$' ∉ s.start.data → '$' ∉ s.stop.data →
      (finalizeMessages msgs slots).get? i =
        some (String.mk (pre ++ (s.start ++ " - " ++ s.stop).data ++ suf))) ∧
    (slots.get? i = none →
      (finalizeMessages msgs slots).get? i =
        some (String.mk (pre ++ "[TIME]".data ++ suf))) ∧
    (finalizeMessages msgs slots).length = msgs.length := by
  have hget := finalizeFrom_get? slots msgs 0 i
  simp only [Nat.zero_add] at hget
  refine ⟨?_, ?_, finalizeFrom_length slots msgs 0⟩
  · intro s hs hd1 hd2
    have hnd : '$' ∉ (s.start ++ " - " ++ s.stop).data := by
      simp only [String.data_append, List.mem_append]
      rintro ((h1 | h2) | h3)
      · exact hd1 h1
      · exact absurd h2 (by decide)
      · exact hd2 h3
    rw [finalizeMessages, hget, hmsg]
    rw [Option.map_some']
    rw [hs]
    rw [replaceJS_at_unique msg timeSlotPlaceholder _ pre suf hdecomp hocc]
    rw [show slotTimeString (some s) = s.start ++ " - " ++ s.stop from rfl]
    rw [getSubstitution_no_dollar _ _ _ _ hnd]
  · intro hs
    rw [finalizeMessages, hget, hmsg]
    rw [Option.map_some']
    rw [hs]
    rw [replaceJS_at_unique msg timeSlotPlaceholder _ pre suf hdecomp hocc]
    rw [show slotTimeString none = "[TIME]" from rfl]
    rw [getSubstitution_no_dollar _ _ _ _ (by decide)]

/-- C6 witness: finalizing one template against one 09:00 to 11:00 slot,
with all hypotheses discharged at the concrete input. -/
theorem C6_witness :
    (finalizeMessages ["Hi " ++ timeSlotPlaceholder] [⟨"09:00", "11:00"⟩]).get? 0 =
      some (String.mk ("Hi ".data ++ ("09:00" ++ " - " ++ "11:00").data ++ [])) :=
  (C6_message_finalization ["Hi " ++ timeSlotPlaceholder] [⟨"09:00", "11:00"⟩] 0
      ("Hi " ++ timeSlotPlaceholder) "Hi ".data [] (by decide) (by decide)
      (by decide)).1
    ⟨"09:00", "11:00"⟩ (by decide) (by decide) (by decide)

/-- C7 counterexample: the address of a letter and a comma normalizes to
itself, a 2-character query, yet the geocode step does attempt a network
call (and resolves coordinates when the provider answers), because the
length test runs on the URL-encoded query, in which the comma occupies
three characters. -/
theorem C7_counterexample :
    (cleanAddressForGeocode "a,").length = 2 ∧
    geocodeQuery "a," = "a%2C" ∧
    geocodeCalls "a," = 1 ∧
    geocode (fun _ => some ()) "a," = some () :=
  ⟨by decide, by decide, by decide, by decide⟩

/-- C7 (amended): an address whose geocoding query is shorter than 3
characters after normalization and URL-encoding is treated as
unresolvable: the geocode step resolves no coordinates and makes no
network call, and any travel estimate with that address at either
endpoint is absent. -/
theorem C7_short_query_unresolvable {γ δ : Type} (net : String → Option γ)
    (route : γ → γ → Option δ) (addr other : String)
    (hshort : (geocodeQuery addr).length < 3) :
    geocode net addr = none ∧ geocodeCalls addr = 0 ∧
    estimateTravelTime net route addr other = none ∧
    estimateTravelTime net route other addr = none := by
  have hskip : geocodeSkips addr = true := by
    simp [geocodeSkips, hshort]
  refine ⟨?_, ?_, ?_, ?_⟩
  · simp [geocode, hskip]
  · simp [geocodeCalls, hskip]
  · by_cases h1 : addr = "" <;> by_cases h2 : other = "" <;>
      simp [estimateTravelTime, geocode, hskip, h1, h2]
  · by_cases h1 : addr = "" <;> by_cases h2 : other = "" <;>
      cases hgo : geocode net other <;>
        simp [estimateTravelTime, geocode, hskip, h1, h2, hgo]

/-- C7 witness: the two-letter address has a two-character encoded query,
and the claim conclusions hold for it with concrete oracles. -/
theorem C7_witness :
    (geocodeQuery "ab").length < 3 ∧
    geocode (fun _ => some ()) "ab" = none ∧
    geocodeCalls "ab" = 0 ∧
    estimateTravelTime (fun _ => some ()) (fun _ _ => some ()) "ab" "anything" = none :=
  ⟨by decide,
   (C7_short_query_unresolvable (fun _ => some ()) (fun _ _ => some ())
     "ab" "anything" (by decide)).1,
   (C7_short_query_unresolvable (fun _ => some ()) (fun _ _ => some ())
     "ab" "anything" (by decide)).2.1,
   (C7_short_query_unresolvable (fun _ => some ()) (fun _ _ => some ())
     "ab" "anything" (by decide)).2.2.1⟩

/-- C8: an empty origin or destination makes the travel estimate absent
immediately, with zero network calls (no geocoding, no routing). -/
theorem C8_empty_address_absent {γ δ : Type} (net : String → Option γ)
    (route : γ → γ → Option δ) (x : String) :
    estimateTravelTime net route "" x = none ∧
    estimateTravelTime net route x "" = none ∧
    estimateCalls net "" x = 0 ∧
    estimateCalls net x "" = 0 := by
  refine ⟨?_, ?_, ?_, ?_⟩ <;> simp [estimateTravelTime, estimateCalls]

/-- C10: the TBD time placeholder of the parser, used as an address, is mapped
by normalization to the empty query, so that endpoint resolves no
coordinates and costs no geocode call, and any estimate with TBD at
either endpoint is absent, although TBD itself is a non-empty string. -/
theorem C10_tbd_address_absent {γ δ : Type} (net : String → Option γ)
    (route : γ → γ → Option δ) (x : String) :
    cleanAddressForGeocode "TBD" = "" ∧
    geocode net "TBD" = none ∧
    geocodeCalls "TBD" = 0 ∧
    ("TBD" : String) ≠ "" ∧
    estimateTravelTime net route "TBD" x = none ∧
    estimateTravelTime net route x "TBD" = none := by
  have hskip : geocodeSkips "TBD" = true := by decide
  refine ⟨rfl, ?_, ?_, by decide, ?_, ?_⟩
  · simp [geocode, hskip]
  · simp [geocodeCalls, hskip]
  · by_cases hx : x = "" <;>
      simp [estimateTravelTime, geocode, hskip, hx]
  · by_cases hx : x = "" <;> cases hgo : geocode net x <;>
      simp [estimateTravelTime, geocode, hskip, hx, hgo]
